import Mathlib

/-!
Shallow embedding of the Barebone state-management core, translated from
`src/barebone/create-store.ts` and `src/barebone/state-store.ts`.

The store is a single-key object mapping the configured name to the state
value, so a store view is modelled by the state value `S` itself.  The
listener registry is a JavaScript `Map` keyed by the subscriber's `setState`
callback identity; we model identities as natural numbers and the registry as
an insertion-ordered list with unique keys (`Map` iteration order is insertion
order).  Listener callbacks and equality predicates may throw, which we model
with `Except E`.  A write produces a trace of observable events (equality
checks, notifications, the commit) so that ordering and abort behaviour can
be stated.
-/

set_option autoImplicit false

namespace Barebone

/-- JavaScript values as far as strict equality (`===`) on projection results
is concerned: primitives compare by value, objects and arrays by reference
identity (modelled by a `Nat` id). -/
inductive JSValue where
  | jsUndefined
  | jsNull
  | num (n : Int)
  | boolean (b : Bool)
  | str (s : String)
  | ref (id : Nat)
deriving DecidableEq, Repr

/-- Result of a `useStore` select projection: either a single value or an
array.  An array carries both its reference identity (`refId`, fresh for each
array literal the projection builds) and its elements. -/
inductive SelectResult where
  | single (v : JSValue)
  | array (refId : Nat) (elems : List JSValue)
deriving DecidableEq, Repr

/-- The value a `SelectResult` denotes for a raw `===`/`!==` comparison:
an array compares by its reference identity. -/
def SelectResult.asValue : SelectResult → JSValue
  | .single v => v
  | .array r _ => .ref r

/-- JavaScript array indexing: out-of-range reads give `undefined`. -/
def arrGet (elems : List JSValue) (i : Nat) : JSValue :=
  elems.getD i .jsUndefined

/-- Translation of `defaultStoreUpdateCheck` (create-store.ts, lines 162-177).
The source iterates `for (let i = 0; i < oldStoreResult.length; i++)` but has
`return false` inside the loop body, so when both results are arrays and the
old one is non-empty only index 0 is ever compared; when the old array is
empty the loop is skipped and control falls through to the raw
`oldStoreResult !== newStoreResult` reference comparison. -/
def defaultStoreUpdateCheck (oldStoreResult newStoreResult : SelectResult) : Bool :=
  match oldStoreResult, newStoreResult with
  | .array _ oldElems, .array _ newElems =>
    match oldElems with
    | [] => !(oldStoreResult.asValue == newStoreResult.asValue)
    | o0 :: _ => !(o0 == arrGet newElems 0)
  | _, _ => !(oldStoreResult.asValue == newStoreResult.asValue)

/-- Observable events of one write (`updateStateHelper` / `updateState`):
an equality-predicate evaluation with its arguments and result, a listener
notification (its `setState` being invoked with the candidate store view),
and the final commit into the state holder. -/
inductive Event (S : Type) where
  | checked (key : Nat) (newStore oldStore : S) (result : Bool)
  | notified (key : Nat) (value : S)
  | committed (value : S)
deriving DecidableEq, Repr

/-- The listener key an event belongs to (`none` for the commit). -/
def Event.key? {S : Type} : Event S → Option Nat
  | .checked k _ _ _ => some k
  | .notified k _ => some k
  | .committed _ => none

/-- One entry of the listener registry: the subscriber identity (the
`setState` reference used as the `Map` key), the update callback, and the
optional equality predicate.  Callbacks may throw (`Except E`). -/
structure ListenerEntry (S : Type) (E : Type) where
  key : Nat
  setState : S → Except E Unit
  equalFn : Option (S → S → Except E Bool)

/-- The store engine state: the current state value held under the store's
single key, plus the listener registry in insertion order. -/
structure StoreState (S : Type) (E : Type) where
  store : S
  stateListeners : List (ListenerEntry S E)

/-- One iteration of the `stateListeners.forEach` body: if an equality
predicate is present it is called with `(newStore, store)` and the listener's
`setState(newStore)` runs only when it returns true; with no predicate the
listener is always notified.  A thrown error aborts the iteration. -/
def listenerRun {S E : Type} (newStore oldStore : S) (l : ListenerEntry S E) :
    Except E (List (Event S)) :=
  match l.equalFn with
  | some eqf =>
    match eqf newStore oldStore with
    | .error e => .error e
    | .ok true =>
      match l.setState newStore with
      | .error e => .error e
      | .ok _ => .ok [.checked l.key newStore oldStore true, .notified l.key newStore]
    | .ok false => .ok [.checked l.key newStore oldStore false]
  | none =>
    match l.setState newStore with
    | .error e => .error e
    | .ok _ => .ok [.notified l.key newStore]

/-- The `stateListeners.forEach` loop over the registry in insertion order.
Returns the trace of events together with the first error, if any; a thrown
error aborts the remaining iterations. -/
def runListeners {S E : Type} (newStore oldStore : S) :
    List (ListenerEntry S E) → List (Event S) × Option E
  | [] => ([], none)
  | l :: rest =>
    match listenerRun newStore oldStore l with
    | .error e => ([], some e)
    | .ok evs =>
      let r := runListeners newStore oldStore rest
      (evs ++ r.1, r.2)

/-- Translation of `updateStateHelper` (create-store.ts, lines 240-262) and
`StateStore.updateState` (state-store.ts, lines 48-63): notify every listener
against the candidate new store view and the current store, then commit
`store[stateName] = newState`.  An error thrown by a predicate or callback
propagates out before the commit statement runs, leaving the holder
unchanged.  (`StateStore.updateState` passes a structural clone of the
candidate view to `setState` in the predicate branch; under value semantics
the clone is the value itself.) -/
def updateStateHelper {S E : Type} (newState : S) (st : StoreState S E) :
    StoreState S E × List (Event S) × Option E :=
  let r := runListeners newState st.store st.stateListeners
  match r.2 with
  | some e => (st, r.1, some e)
  | none => ({ st with store := newState }, r.1 ++ [.committed newState], none)

/-- Translation of `syncAction` (create-store.ts, lines 221-224): call the
user reducer with the state current at the moment of the call
(`store[stateName]`) and feed the result to `updateStateHelper`.  A reducer
with extra payload arguments is modelled with the payload already applied. -/
def syncAction {S E : Type} (f : S → S) (st : StoreState S E) :
    StoreState S E × List (Event S) × Option E :=
  updateStateHelper (f st.store) st

/-- A straight-line sequence of public synchronous action calls.  A thrown
listener error propagates to the caller and aborts the rest of the
sequence. -/
def runSyncActions {S E : Type} : List (S → S) → StoreState S E → StoreState S E × Option E
  | [], st => (st, none)
  | f :: fs, st =>
    match syncAction f st with
    | (st', _, some e) => (st', some e)
    | (st', _, none) => runSyncActions fs st'

/-- Translation of `asyncAction` (create-store.ts, lines 215-218):
`updateStoreWrapper(await actions[key](store[stateName], ...payload))`.
The wrapper reads `store[stateName]` when it is called, invokes the user
action on that snapshot, suspends while the promise is pending (during which
other synchronous writes `during` may run on the shared store), and on
resolution commits the awaited result — a value computed from the
call-time snapshot `s0` — via `updateStateHelper`, wholesale. -/
def asyncActionRun {S E : Type} (f : S → S) (during : List (S → S))
    (st : StoreState S E) : StoreState S E × List (Event S) × Option E :=
  let s0 := st.store
  let st1 := (runSyncActions during st).1
  updateStateHelper (f s0) st1

/-- Modelled from the spec: the spec's section 4.4(b) return-style protocol
says the single commit uses "the state value current at commit time (read
freshly, not the value captured when the action began)", i.e. the user action
is applied to the state as read when the promise resolves.  This definition
follows those words, for comparison with `asyncActionRun` translated from the
source. -/
def asyncActionSpecRun {S E : Type} (f : S → S) (during : List (S → S))
    (st : StoreState S E) : StoreState S E × List (Event S) × Option E :=
  let st1 := (runSyncActions during st).1
  updateStateHelper (f st1.store) st1

/-- Whether the registry already has an entry for this listener identity
(`stateListeners.has`). -/
def hasKey {S E : Type} (k : Nat) (ls : List (ListenerEntry S E)) : Bool :=
  ls.any fun l => l.key == k

/-- Translation of `StateStore.unsubscribe` (state-store.ts, lines 40-42):
`stateListeners.delete(storeChangeListener)`.  `Map` keys are unique, so
deleting the key removes at most the one entry with that identity; on a
registry with unique keys the filter below is exactly that. -/
def unsubscribe {S E : Type} (k : Nat) (st : StoreState S E) : StoreState S E :=
  { st with stateListeners := st.stateListeners.filter fun l => !(l.key == k) }

/-- Translation of `StateStore.subscribe` (state-store.ts, lines 23-38): if
the identity is already registered, return `undefined` (`none`) and leave the
registry alone; otherwise append the entry (`Map.set` adds new keys in
insertion order) and return the unsubscribe closure. -/
def subscribe {S E : Type} (storeChangeListener : Nat) (setState : S → Except E Unit)
    (equalFn : Option (S → S → Except E Bool)) (st : StoreState S E) :
    StoreState S E × Option (StoreState S E → StoreState S E) :=
  if hasKey storeChangeListener st.stateListeners then
    (st, none)
  else
    ({ st with
        stateListeners :=
          st.stateListeners ++ [⟨storeChangeListener, setState, equalFn⟩] },
      some (unsubscribe storeChangeListener))

/-- The default equality predicate wired by `useStoreSelect` (create-store.ts,
lines 140-143) when the caller supplies none:
`(newState, oldState) => defaultStoreUpdateCheck(select(oldState), select(newState))`. -/
def mkDefaultEqualFn {S E : Type} (select : S → SelectResult) : S → S → Except E Bool :=
  fun newState oldState => .ok (defaultStoreUpdateCheck (select oldState) (select newState))

/-- A registry entry as created by `useStoreSelect` with no custom equality
function: keyed by the `setState` identity, carrying the default check closed
over the projection. -/
def mkDefaultListener {S E : Type} (k : Nat) (setState : S → Except E Unit)
    (select : S → SelectResult) : ListenerEntry S E :=
  { key := k, setState := setState, equalFn := some (mkDefaultEqualFn select) }

/-- A successful listener iteration produces one of three traces: predicate
true (check then notification), predicate false (check only), or no predicate
(notification only). -/
theorem listenerRun_ok_shape {S E : Type} (n o : S) (l : ListenerEntry S E)
    (evs : List (Event S)) (h : listenerRun n o l = .ok evs) :
    evs = [.checked l.key n o true, .notified l.key n] ∨
    evs = [.checked l.key n o false] ∨
    evs = [.notified l.key n] := by
  cases hfn : l.equalFn with
  | none =>
    cases hs : l.setState n with
    | error e => simp [listenerRun, hfn, hs] at h
    | ok u => simp [listenerRun, hfn, hs] at h; right; right; exact h.symm
  | some eqf =>
    cases he : eqf n o with
    | error e => simp [listenerRun, hfn, he] at h
    | ok b =>
      cases b with
      | false =>
        simp [listenerRun, hfn, he] at h
        right; left; exact h.symm
      | true =>
        cases hs : l.setState n with
        | error e => simp [listenerRun, hfn, he, hs] at h
        | ok u =>
          simp [listenerRun, hfn, he, hs] at h
          left; exact h.symm

/-- Every event of a successful listener iteration carries that listener's
key; in particular the iteration never emits a commit event. -/
theorem listenerRun_key {S E : Type} {n o : S} {l : ListenerEntry S E}
    {evs : List (Event S)} (h : listenerRun n o l = .ok evs) :
    ∀ ev ∈ evs, ev.key? = some l.key := by
  intro ev hev
  rcases listenerRun_ok_shape n o l evs h with h' | h' | h' <;> subst h' <;>
    simp at hev <;> rcases hev with h'' | h'' <;> simp_all [Event.key?]

/-- Every check event of a successful listener iteration compares the
candidate view against the old store value passed in. -/
theorem listenerRun_checked_args {S E : Type} {n o : S} {l : ListenerEntry S E}
    {evs : List (Event S)} (h : listenerRun n o l = .ok evs) :
    ∀ k nv ov b, Event.checked k nv ov b ∈ evs → ov = o ∧ nv = n := by
  intro k nv ov b hev
  rcases listenerRun_ok_shape n o l evs h with h' | h' | h' <;> subst h' <;>
    simp_all

/-- Every event in a `forEach` trace belongs to some listener of the list. -/
theorem runListeners_key {S E : Type} (n o : S) (ls : List (ListenerEntry S E)) :
    ∀ ev ∈ (runListeners n o ls).1, ∃ l ∈ ls, ev.key? = some l.key := by
  induction ls with
  | nil => intro ev hev; simp [runListeners] at hev
  | cons l rest ih =>
    intro ev hev
    rw [runListeners] at hev
    cases hl : listenerRun n o l with
    | error e => rw [hl] at hev; simp at hev
    | ok evs =>
      rw [hl] at hev
      simp at hev
      rcases hev with hev | hev
      · exact ⟨l, by simp, listenerRun_key hl ev hev⟩
      · rcases ih ev hev with ⟨m, hm, hk⟩
        exact ⟨m, by simp [hm], hk⟩

/-- A `forEach` trace never contains a commit event. -/
theorem runListeners_no_commit {S E : Type} (n o : S) (ls : List (ListenerEntry S E)) :
    ∀ v, Event.committed v ∉ (runListeners n o ls).1 := by
  intro v hv
  rcases runListeners_key n o ls _ hv with ⟨l, _, hk⟩
  simp [Event.key?] at hk

/-- Every check event in a `forEach` trace received the old store value as
its old-state argument and the candidate view as its new-state argument. -/
theorem runListeners_checked_args {S E : Type} (n o : S) (ls : List (ListenerEntry S E)) :
    ∀ k nv ov b, Event.checked k nv ov b ∈ (runListeners n o ls).1 → ov = o ∧ nv = n := by
  induction ls with
  | nil => intro k nv ov b hev; simp [runListeners] at hev
  | cons l rest ih =>
    intro k nv ov b hev
    rw [runListeners] at hev
    cases hl : listenerRun n o l with
    | error e => rw [hl] at hev; simp at hev
    | ok evs =>
      rw [hl] at hev
      simp at hev
      rcases hev with hev | hev
      · exact listenerRun_checked_args hl k nv ov b hev
      · exact ih k nv ov b hev

/-- Appending registries: if the front part runs without error, the combined
trace is the concatenation and the error status is the back part's. -/
theorem runListeners_append_ok {S E : Type} (n o : S)
    (xs ys : List (ListenerEntry S E)) (h : (runListeners n o xs).2 = none) :
    runListeners n o (xs ++ ys) =
      ((runListeners n o xs).1 ++ (runListeners n o ys).1, (runListeners n o ys).2) := by
  induction xs with
  | nil => simp [runListeners]
  | cons l rest ih =>
    cases hl : listenerRun n o l with
    | error e => rw [runListeners, hl] at h; simp at h
    | ok evs =>
      have h' : (runListeners n o rest).2 = none := by
        rw [runListeners, hl] at h; simpa using h
      simp only [List.cons_append, runListeners, hl, List.append_eq]
      rw [ih h']
      simp

/-- Appending registries: an error in the front part aborts everything after
it, and the combined trace is the front part's partial trace. -/
theorem runListeners_append_err {S E : Type} (n o : S)
    (xs ys : List (ListenerEntry S E)) (e : E)
    (h : (runListeners n o xs).2 = some e) :
    runListeners n o (xs ++ ys) = ((runListeners n o xs).1, some e) := by
  induction xs with
  | nil => simp [runListeners] at h
  | cons l rest ih =>
    cases hl : listenerRun n o l with
    | error e' =>
      rw [runListeners, hl] at h
      simp at h
      simp only [List.cons_append, runListeners, hl]
      simp [h]
    | ok evs =>
      have h' : (runListeners n o rest).2 = some e := by
        rw [runListeners, hl] at h; simpa using h
      simp only [List.cons_append, runListeners, hl, List.append_eq]
      rw [ih h']

/-- If the whole `forEach` succeeds, so does every contiguous part. -/
theorem runListeners_append_none {S E : Type} (n o : S)
    (xs ys : List (ListenerEntry S E)) (h : (runListeners n o (xs ++ ys)).2 = none) :
    (runListeners n o xs).2 = none ∧ (runListeners n o ys).2 = none := by
  cases hx : (runListeners n o xs).2 with
  | none =>
    refine ⟨rfl, ?_⟩
    rw [runListeners_append_ok n o xs ys hx] at h
    exact h
  | some e =>
    rw [runListeners_append_err n o xs ys e hx] at h
    simp at h

/-- If the `forEach` loop throws, the write returns the error and the partial
trace, and the holder keeps its old value. -/
theorem updateStateHelper_err {S E : Type} {n : S} {st : StoreState S E} {e : E}
    (h : (runListeners n st.store st.stateListeners).2 = some e) :
    updateStateHelper n st = (st, (runListeners n st.store st.stateListeners).1, some e) := by
  simp [updateStateHelper, h]

/-- If the `forEach` loop finishes, the write commits the new value as its
final step and reports no error. -/
theorem updateStateHelper_ok {S E : Type} {n : S} {st : StoreState S E}
    (h : (runListeners n st.store st.stateListeners).2 = none) :
    updateStateHelper n st =
      ({ st with store := n },
        (runListeners n st.store st.stateListeners).1 ++ [.committed n], none) := by
  simp [updateStateHelper, h]

/-- A key registered by no listener of the list never appears in the
`forEach` trace. -/
theorem no_event_for_absent_key {S E : Type} (n o : S)
    (ls : List (ListenerEntry S E)) (k : Nat) (habs : ∀ m ∈ ls, m.key ≠ k) :
    ∀ ev ∈ (runListeners n o ls).1, ev.key? ≠ some k := by
  intro ev hev hk
  rcases runListeners_key n o ls ev hev with ⟨m, hm, hk'⟩
  rw [hk] at hk'
  exact habs m hm (Option.some.inj hk').symm

/-- C1: For every initial state and every finite sequence of calls to the
public synchronous actions that runs to completion, the value readable from
the store afterwards is the left fold of the user reducers, applied in call
order, over the initial state; each call feeds its reducer the state current
at the moment of the call and commits the reducer's result. -/
theorem c1_sync_sequence_folds {S E : Type} (fs : List (S → S)) (st st' : StoreState S E)
    (h : runSyncActions fs st = (st', none)) :
    st'.store = fs.foldl (fun s f => f s) st.store := by
  induction fs generalizing st with
  | nil =>
    simp [runSyncActions] at h
    rw [← h]
    simp
  | cons f rest ih =>
    rw [runSyncActions] at h
    cases hr : (runListeners (f st.store) st.store st.stateListeners).2 with
    | some e =>
      rw [show syncAction f st = updateStateHelper (f st.store) st from rfl,
        updateStateHelper_err hr] at h
      simp at h
    | none =>
      rw [show syncAction f st = updateStateHelper (f st.store) st from rfl,
        updateStateHelper_ok hr] at h
      simp only at h
      have := ih _ h
      rw [this]
      simp

/-- C3: On every write all equality-predicate evaluations receive the
previous in-memory store value as their old-state argument, and the commit of
the new value into the holder is the last step: on a successful write the
trace ends with the commit and contains no earlier commit, and on a failed
write no commit happens at all. -/
theorem c3_commit_is_last {S E : Type} (st : StoreState S E) (ns : S) :
    (∀ k nv ov b, Event.checked k nv ov b ∈ (updateStateHelper ns st).2.1 → ov = st.store) ∧
    ((updateStateHelper ns st).2.2 = none →
      (updateStateHelper ns st).1.store = ns ∧
      (updateStateHelper ns st).2.1.getLast? = some (Event.committed ns) ∧
      ∀ v, Event.committed v ∉ (updateStateHelper ns st).2.1.dropLast) ∧
    (∀ e, (updateStateHelper ns st).2.2 = some e →
      (updateStateHelper ns st).1 = st ∧
      ∀ v, Event.committed v ∉ (updateStateHelper ns st).2.1) := by
  cases hr : (runListeners ns st.store st.stateListeners).2 with
  | some e =>
    rw [updateStateHelper_err hr]
    refine ⟨?_, ?_, ?_⟩
    · intro k nv ov b hev
      exact (runListeners_checked_args ns st.store st.stateListeners k nv ov b hev).1
    · intro hcontra; simp at hcontra
    · intro e' _
      exact ⟨rfl, runListeners_no_commit ns st.store st.stateListeners⟩
  | none =>
    rw [updateStateHelper_ok hr]
    refine ⟨?_, ?_, ?_⟩
    · intro k nv ov b hev
      rw [List.mem_append] at hev
      rcases hev with hev | hev
      · exact (runListeners_checked_args ns st.store st.stateListeners k nv ov b hev).1
      · simp at hev
    · intro _
      refine ⟨rfl, ?_, ?_⟩
      · simp
      · intro v hv
        rw [List.dropLast_concat] at hv
        exact runListeners_no_commit ns st.store st.stateListeners v hv
    · intro e' hcontra; simp at hcontra

/-- C9: A write during which some equality predicate or update callback
throws leaves the stored value unchanged: the commit never executes, so a
failed write is a no-op on the state holder. -/
theorem c9_failed_write_is_noop {S E : Type} (st : StoreState S E) (ns : S) (e : E)
    (st' : StoreState S E) (evs : List (Event S))
    (h : updateStateHelper ns st = (st', evs, some e)) :
    st' = st ∧ ∀ v, Event.committed v ∉ evs := by
  cases hr : (runListeners ns st.store st.stateListeners).2 with
  | none =>
    rw [updateStateHelper_ok hr] at h
    simp at h
  | some e' =>
    rw [updateStateHelper_err hr] at h
    simp only [Prod.mk.injEq] at h
    obtain ⟨h1, h2a, _⟩ := h
    refine ⟨h1.symm, ?_⟩
    intro v hv
    rw [← h2a] at hv
    exact runListeners_no_commit ns st.store st.stateListeners v hv

/-- C6: Registering a listener identity that is already present is a no-op:
the registry (and the whole store engine state) is unchanged, so the
originally registered equality predicate and callback remain in effect for
every subsequent write. -/
theorem c6_resubscribe_is_noop {S E : Type} (k : Nat) (setS2 : S → Except E Unit)
    (eqF2 : Option (S → S → Except E Bool)) (st : StoreState S E)
    (hpresent : hasKey k st.stateListeners = true) :
    (subscribe k setS2 eqF2 st).1 = st ∧
    ∀ ns, updateStateHelper ns (subscribe k setS2 eqF2 st).1 = updateStateHelper ns st := by
  have h1 : (subscribe k setS2 eqF2 st).1 = st := by simp [subscribe, hpresent]
  exact ⟨h1, fun ns => by rw [h1]⟩

/-- C7: Unregistering a listener identity removes exactly the entries with
that identity (a no-op when it is absent), leaves every other registry entry
and the stored state value unchanged, and the removed identity receives no
event — check or notification — in any subsequent write. -/
theorem c7_unsubscribe_removes_exactly {S E : Type} (k : Nat) (st : StoreState S E) :
    (unsubscribe k st).store = st.store ∧
    (∀ l ∈ st.stateListeners, l.key ≠ k → l ∈ (unsubscribe k st).stateListeners) ∧
    (∀ l ∈ (unsubscribe k st).stateListeners, l ∈ st.stateListeners ∧ l.key ≠ k) ∧
    (hasKey k st.stateListeners = false → unsubscribe k st = st) ∧
    (∀ ns : S, ∀ ev ∈ (updateStateHelper ns (unsubscribe k st)).2.1, ev.key? ≠ some k) := by
  have habs : ∀ m ∈ (unsubscribe k st).stateListeners, m.key ≠ k := by
    intro m hm
    have := List.of_mem_filter hm
    simpa using this
  refine ⟨rfl, ?_, ?_, ?_, ?_⟩
  · intro l hl hk
    exact List.mem_filter.mpr ⟨hl, by simpa using hk⟩
  · intro l hl
    exact ⟨List.mem_of_mem_filter hl, habs l hl⟩
  · intro h0
    have hall : ∀ l ∈ st.stateListeners, (!(l.key == k)) = true := by
      intro l hl
      simp only [hasKey, List.any_eq_false] at h0
      simpa using h0 l hl
    show { st with stateListeners := st.stateListeners.filter _ } = st
    rw [List.filter_eq_self.mpr hall]
  · intro ns ev hev
    cases hr : (runListeners ns (unsubscribe k st).store (unsubscribe k st).stateListeners).2 with
    | some e =>
      rw [updateStateHelper_err hr] at hev
      exact no_event_for_absent_key ns (unsubscribe k st).store
        (unsubscribe k st).stateListeners k habs ev hev
    | none =>
      rw [updateStateHelper_ok hr] at hev
      simp only at hev
      rw [List.mem_append] at hev
      rcases hev with hev | hev
      · exact no_event_for_absent_key ns (unsubscribe k st).store
          (unsubscribe k st).stateListeners k habs ev hev
      · simp at hev
        rw [hev]
        simp [Event.key?]

/-- C8: If a listener's equality predicate or update callback throws during a
write, the error propagates synchronously out of the write (it is the write's
reported error), the already-produced partial trace is all that happened, no
commit took place, and no listener after the failing one saw any check or
notification. -/
theorem c8_listener_error_propagates {S E : Type} (st : StoreState S E) (ns : S)
    (L1 L2 : List (ListenerEntry S E)) (l : ListenerEntry S E) (e : E)
    (hsplit : st.stateListeners = L1 ++ l :: L2)
    (hnodup : (st.stateListeners.map fun m => m.key).Nodup)
    (hok : (runListeners ns st.store L1).2 = none)
    (hfail : listenerRun ns st.store l = .error e) :
    updateStateHelper ns st = (st, (runListeners ns st.store L1).1, some e) ∧
    (∀ v, Event.committed v ∉ (runListeners ns st.store L1).1) ∧
    (∀ m ∈ L2, ∀ ev ∈ (runListeners ns st.store L1).1, ev.key? ≠ some m.key) := by
  have hl2 : runListeners ns st.store (l :: L2) = ([], some e) := by
    rw [runListeners, hfail]
  have hfull : runListeners ns st.store st.stateListeners =
      ((runListeners ns st.store L1).1, some e) := by
    rw [hsplit, runListeners_append_ok ns st.store L1 (l :: L2) hok, hl2]
    simp
  have herr : (runListeners ns st.store st.stateListeners).2 = some e := by
    rw [hfull]
  have hupd := updateStateHelper_err herr
  rw [hfull] at hupd
  refine ⟨hupd, runListeners_no_commit ns st.store L1, ?_⟩
  have hnd : ((L1.map fun m => m.key) ++ (l.key :: (L2.map fun m => m.key))).Nodup := by
    have := hnodup
    rw [hsplit] at this
    simpa using this
  obtain ⟨-, -, hdisj⟩ := List.nodup_append.mp hnd
  intro m hm
  have habs1 : ∀ m1 ∈ L1, m1.key ≠ m.key := by
    intro m1 hm1 hkeq
    exact hdisj (List.mem_map.mpr ⟨m1, hm1, rfl⟩)
      (hkeq ▸ List.mem_cons_of_mem _ (List.mem_map.mpr ⟨m, hm, rfl⟩))
  exact no_event_for_absent_key ns st.store L1 m.key habs1

/-- C10: `subscribe` returns the unsubscribe closure when the identity was
not yet registered, and returns `undefined` (no handle) while leaving the
registry unchanged when the identity is already present. -/
theorem c10_subscribe_handle {S E : Type} (k : Nat) (setS : S → Except E Unit)
    (eqF : Option (S → S → Except E Bool)) (st : StoreState S E) :
    (hasKey k st.stateListeners = true → subscribe k setS eqF st = (st, none)) ∧
    (hasKey k st.stateListeners = false →
      subscribe k setS eqF st =
        ({ st with stateListeners := st.stateListeners ++ [⟨k, setS, eqF⟩] },
          some (unsubscribe k))) := by
  constructor <;> intro h <;> simp [subscribe, h]

/-- The default check on two single (non-array) projections is raw strict
inequality. -/
theorem defaultStoreUpdateCheck_single (a b : JSValue) :
    defaultStoreUpdateCheck (.single a) (.single b) = !(a == b) := rfl

/-- C5: A listener using the default equality check with a projection that
returns a single (non-array) value is notified by a successful write exactly
when the projection of the new store view differs (strict inequality) from
the projection of the previous store view. -/
theorem c5_default_scalar_notifies {S E : Type} (st : StoreState S E) (ns : S) (k : Nat)
    (sel : S → JSValue) (setS : S → Except E Unit) (L1 L2 : List (ListenerEntry S E))
    (hsplit : st.stateListeners =
      L1 ++ mkDefaultListener k setS (fun s => SelectResult.single (sel s)) :: L2)
    (hnodup : (st.stateListeners.map fun m => m.key).Nodup)
    (hok : (updateStateHelper ns st).2.2 = none) :
    (∃ v, Event.notified k v ∈ (updateStateHelper ns st).2.1) ↔ sel ns ≠ sel st.store := by
  have hrl : (runListeners ns st.store st.stateListeners).2 = none := by
    cases hr : (runListeners ns st.store st.stateListeners).2 with
    | some e => rw [updateStateHelper_err hr] at hok; simp at hok
    | none => rfl
  have hsplit' : (runListeners ns st.store
      (L1 ++ mkDefaultListener k setS (fun s => SelectResult.single (sel s)) :: L2)).2 = none := by
    rw [← hsplit]; exact hrl
  obtain ⟨hok1, hok2⟩ := runListeners_append_none ns st.store L1 _ hsplit'
  have hnd : ((L1.map fun m => m.key) ++ (k :: (L2.map fun m => m.key))).Nodup := by
    have h0 := hnodup
    rw [hsplit] at h0
    simpa [mkDefaultListener] using h0
  obtain ⟨-, hnd2, hdisj⟩ := List.nodup_append.mp hnd
  have hkL1 : ∀ m1 ∈ L1, m1.key ≠ k := by
    intro m1 hm1 hkeq
    exact hdisj (List.mem_map.mpr ⟨m1, hm1, rfl⟩) (hkeq ▸ List.mem_cons_self _ _)
  have hkL2 : ∀ m2 ∈ L2, m2.key ≠ k := by
    intro m2 hm2 hkeq
    exact (List.nodup_cons.mp hnd2).1 (hkeq ▸ List.mem_map.mpr ⟨m2, hm2, rfl⟩)
  cases hchk : sel st.store == sel ns with
  | true =>
    have hdl : listenerRun ns st.store
        (mkDefaultListener k setS (fun s => SelectResult.single (sel s)) : ListenerEntry S E) =
        .ok [.checked k ns st.store false] := by
      simp [listenerRun, mkDefaultListener, mkDefaultEqualFn, defaultStoreUpdateCheck,
        SelectResult.asValue, hchk]
    have htr : (runListeners ns st.store st.stateListeners).1 =
        (runListeners ns st.store L1).1 ++
          ([Event.checked k ns st.store false] ++ (runListeners ns st.store L2).1) := by
      rw [hsplit, runListeners_append_ok ns st.store L1 _ hok1]
      simp [runListeners, hdl]
    apply iff_of_false
    · rintro ⟨v, hv⟩
      rw [updateStateHelper_ok hrl] at hv
      simp only at hv
      rw [List.mem_append] at hv
      rcases hv with hv | hv
      · rw [htr, List.mem_append] at hv
        rcases hv with hv | hv
        · exact no_event_for_absent_key ns st.store L1 k hkL1 _ hv rfl
        · rw [List.mem_append] at hv
          rcases hv with hv | hv
          · simp at hv
          · exact no_event_for_absent_key ns st.store L2 k hkL2 _ hv rfl
      · simp at hv
    · intro hne
      exact hne (eq_of_beq hchk).symm
  | false =>
    cases hss : setS ns with
    | error e2 =>
      have hdl : listenerRun ns st.store
          (mkDefaultListener k setS (fun s => SelectResult.single (sel s)) : ListenerEntry S E) =
          .error e2 := by
        simp [listenerRun, mkDefaultListener, mkDefaultEqualFn, defaultStoreUpdateCheck,
          SelectResult.asValue, hchk, hss]
      rw [runListeners, hdl] at hok2
      simp at hok2
    | ok u =>
      have hdl : listenerRun ns st.store
          (mkDefaultListener k setS (fun s => SelectResult.single (sel s)) : ListenerEntry S E) =
          .ok [.checked k ns st.store true, .notified k ns] := by
        simp [listenerRun, mkDefaultListener, mkDefaultEqualFn, defaultStoreUpdateCheck,
          SelectResult.asValue, hchk, hss]
      have htr : (runListeners ns st.store st.stateListeners).1 =
          (runListeners ns st.store L1).1 ++
            ([Event.checked k ns st.store true, Event.notified k ns] ++
              (runListeners ns st.store L2).1) := by
        rw [hsplit, runListeners_append_ok ns st.store L1 _ hok1]
        simp [runListeners, hdl]
      apply iff_of_true
      · refine ⟨ns, ?_⟩
        rw [updateStateHelper_ok hrl]
        simp only
        rw [List.mem_append]
        left
        rw [htr, List.mem_append]
        right
        rw [List.mem_append]
        left
        simp
      · intro heq
        rw [heq] at hchk
        simp at hchk

/-- Projection selecting the pair as the array `[count, isUpdating]`, as in
the README's multi-property example.  The refId stands for the array object's
identity; the non-empty-array branch of `defaultStoreUpdateCheck` never
consults it. -/
def arraySelect : Int × Bool → SelectResult :=
  fun s => .array 0 [.num s.1, .boolean s.2]

/-- A store over state `(count, isUpdating)` with one listener using the
default equality check over the array projection. -/
def c2Store : StoreState (Int × Bool) Unit :=
  { store := (0, false),
    stateListeners := [mkDefaultListener 7 (fun _ => .ok ()) arraySelect] }

/-- C2, failing input: with the default equality check and the array
projection of `(count, isUpdating)`, the write taking the store from
`(0, false)` to `(0, true)` is NOT notified: the source's early return inside
the comparison loop means only index 0 is compared, so the check yields false
and the trace holds no notification, only the check and the commit. -/
theorem c2_array_change_not_notified :
    defaultStoreUpdateCheck (arraySelect (0, false)) (arraySelect (0, true)) = false ∧
    updateStateHelper ((0 : Int), true) c2Store =
      ({ c2Store with store := (0, true) },
        [Event.checked 7 (0, true) (0, false) false, Event.committed (0, true)], none) := by
  exact ⟨rfl, rfl⟩

/-- Store with no listeners used to compare the async protocols. -/
def c4Store : StoreState Int Unit := { store := 0, stateListeners := [] }

/-- C4, counterexample: the source's async wrapper hands the user action the
state read when the wrapper was called, so with initial state 0, the action
adding 1, and an interleaved synchronous write setting the state to 100
before the promise resolves, the source commits 1 — whereas committing from
the snapshot taken when the promise resolves (the spec's words, modelled by
`asyncActionSpecRun`) would commit 101. -/
theorem c4_commit_uses_call_time_snapshot :
    (asyncActionRun (fun s => s + 1) [fun _ => 100] c4Store).1.store = 1 ∧
    (asyncActionSpecRun (fun s => s + 1) [fun _ => 100] c4Store).1.store = 101 ∧
    ((1 : Int) ≠ 101) := by
  refine ⟨rfl, rfl, by decide⟩

/-- Whether an event is the commit. -/
def Event.isCommit {S : Type} : Event S → Bool
  | .committed _ => true
  | _ => false

/-- C4, amended: one call of the public async wrapper performs exactly one
commit, the commit happens only after the action's promise resolves (it is
the final event of the call's trace), and the committed value is the action's
result computed from the state captured when the wrapper was called — the
value replaces the stored state wholesale with no conflict detection. -/
theorem c4_async_single_commit {S E : Type} (f : S → S) (during : List (S → S))
    (st st' : StoreState S E) (evs : List (Event S))
    (h : asyncActionRun f during st = (st', evs, none)) :
    st'.store = f st.store ∧
    evs.getLast? = some (Event.committed (f st.store)) ∧
    evs.countP Event.isCommit = 1 := by
  have h' : updateStateHelper (f st.store) ((runSyncActions during st).1) =
      (st', evs, none) := h
  cases hr : (runListeners (f st.store) ((runSyncActions during st).1).store
      ((runSyncActions during st).1).stateListeners).2 with
  | some e => rw [updateStateHelper_err hr] at h'; simp at h'
  | none =>
    rw [updateStateHelper_ok hr] at h'
    simp only [Prod.mk.injEq] at h'
    obtain ⟨h1, h2, -⟩ := h'
    refine ⟨by rw [← h1], ?_, ?_⟩
    · rw [← h2]
      simp
    · rw [← h2]
      rw [List.countP_append]
      have hz : (runListeners (f st.store) ((runSyncActions during st).1).store
          ((runSyncActions during st).1).stateListeners).1.countP Event.isCommit = 0 := by
        rw [List.countP_eq_zero]
        intro ev hev
        cases ev with
        | checked k nv ov b => simp [Event.isCommit]
        | notified k v => simp [Event.isCommit]
        | committed v =>
          exact absurd hev (runListeners_no_commit _ _ _ v)
      rw [hz]
      simp [Event.isCommit, List.countP_cons]

/-- Store used to instantiate the C1 theorem. -/
def c1Store : StoreState Int Unit := { store := 3, stateListeners := [] }

/-- C1 witness: running the two reducers `+1` then `*2` from initial state 3
leaves the readable value 8, the left fold of the reducers over 3. -/
theorem c1_witness :
    ({ store := (8 : Int), stateListeners := [] } : StoreState Int Unit).store =
      ([fun s => s + 1, fun s => s * 2] : List (Int → Int)).foldl (fun s f => f s) 3 :=
  c1_sync_sequence_folds [fun s => s + 1, fun s => s * 2] c1Store
    { store := 8, stateListeners := [] } rfl

/-- Store with one always-notify listener used to instantiate the C3
theorem. -/
def c3Store : StoreState Int Unit :=
  { store := 0, stateListeners := [⟨1, fun _ => .ok (), none⟩] }

/-- C3 witness: a successful concrete write commits 5 and the commit is the
last event of its trace. -/
theorem c3_witness :
    (updateStateHelper (5 : Int) c3Store).1.store = 5 ∧
    (updateStateHelper (5 : Int) c3Store).2.1.getLast? = some (Event.committed 5) := by
  have h := c3_commit_is_last (S := Int) (E := Unit) c3Store 5
  exact ⟨(h.2.1 rfl).1, (h.2.1 rfl).2.1⟩

/-- Store with one default-equality scalar listener used to instantiate the
C5 theorem. -/
def c5Store : StoreState Int Unit :=
  { store := 0,
    stateListeners :=
      [mkDefaultListener 3 (fun _ => .ok ()) (fun s => SelectResult.single (.num s))] }

/-- C5 witness: on the concrete write 0 to 1 the default scalar check
notifies exactly because `num 1` differs from `num 0`. -/
theorem c5_witness :
    (∃ v, Event.notified 3 v ∈ (updateStateHelper (1 : Int) c5Store).2.1) ↔
      JSValue.num 1 ≠ JSValue.num 0 :=
  c5_default_scalar_notifies c5Store 1 3 (fun s => JSValue.num s) (fun _ => .ok ()) [] []
    rfl (by decide) rfl

/-- Store with one registered listener (identity 5) used to instantiate the
C6 theorem. -/
def c6Store : StoreState Int Unit :=
  { store := 0, stateListeners := [⟨5, fun _ => .ok (), none⟩] }

/-- C6 witness: re-subscribing identity 5, even with a different (throwing)
callback, leaves the concrete store unchanged. -/
theorem c6_witness :
    (subscribe 5 (fun _ => .error ()) none c6Store).1 = c6Store :=
  (c6_resubscribe_is_noop 5 (fun _ => .error ()) none c6Store rfl).1

/-- Store with one registered listener (identity 5) used to instantiate the
C7 theorem. -/
def c7Store : StoreState Int Unit :=
  { store := 0, stateListeners := [⟨5, fun _ => .ok (), none⟩] }

/-- C7 witness: unsubscribing identity 5 keeps the stored value and a
subsequent concrete write produces no notification for identity 5. -/
theorem c7_witness :
    (unsubscribe 5 c7Store).store = c7Store.store ∧
    Event.notified 5 (9 : Int) ∉ (updateStateHelper (9 : Int) (unsubscribe 5 c7Store)).2.1 := by
  have h := c7_unsubscribe_removes_exactly (S := Int) (E := Unit) 5 c7Store
  exact ⟨h.1, fun hmem => h.2.2.2.2 9 (Event.notified 5 9) hmem rfl⟩

/-- Listener notified before the failing one in the C8 witness. -/
def c8Good : ListenerEntry Int Unit := ⟨0, fun _ => .ok (), none⟩

/-- Listener whose equality predicate throws in the C8 witness. -/
def c8Bad : ListenerEntry Int Unit := ⟨1, fun _ => .ok (), some (fun _ _ => .error ())⟩

/-- Listener registered after the failing one in the C8 witness. -/
def c8After : ListenerEntry Int Unit := ⟨2, fun _ => .ok (), none⟩

/-- Store whose middle listener throws, used to instantiate the C8
theorem. -/
def c8Store : StoreState Int Unit := { store := 0, stateListeners := [c8Good, c8Bad, c8After] }

/-- C8 witness: on a concrete write where the second listener's predicate
throws, the write returns that error with only the first listener notified
and no commit, and the third listener saw nothing. -/
theorem c8_witness :
    updateStateHelper (5 : Int) c8Store =
      (c8Store, [Event.notified 0 (5 : Int)], some ()) ∧
    Event.notified 2 (5 : Int) ∉ [Event.notified 0 (5 : Int)] := by
  have h := c8_listener_error_propagates c8Store 5 [c8Good] [c8After] c8Bad ()
    rfl (by decide) rfl rfl
  exact ⟨h.1, fun hmem => h.2.2 c8After (by simp) (Event.notified 2 5) hmem rfl⟩

/-- Store with one failing listener used to instantiate the C9 theorem. -/
def c9Store : StoreState Int Unit :=
  { store := 0, stateListeners := [⟨1, fun _ => .error (), none⟩] }

/-- C9 witness: a concrete write whose only listener throws leaves the holder
at its old value and produces no commit event. -/
theorem c9_witness :
    (updateStateHelper (5 : Int) c9Store).1 = c9Store ∧
    Event.committed (7 : Int) ∉ ([] : List (Event Int)) :=
  ⟨(c9_failed_write_is_noop c9Store 5 () c9Store [] rfl).1,
    (c9_failed_write_is_noop c9Store 5 () c9Store [] rfl).2 7⟩

/-- Store with one registered listener (identity 5) used to instantiate the
C10 theorem. -/
def c10Store : StoreState Int Unit :=
  { store := 0, stateListeners := [⟨5, fun _ => .ok (), none⟩] }

/-- C10 witness: subscribing the present identity 5 returns no handle and the
untouched store, while subscribing the fresh identity 9 appends the entry and
returns the unsubscribe closure. -/
theorem c10_witness :
    subscribe 5 (fun _ => Except.ok ()) none c10Store = (c10Store, none) ∧
    subscribe 9 (fun _ => Except.ok ()) none c10Store =
      ({ c10Store with
          stateListeners := c10Store.stateListeners ++ [⟨9, fun _ => Except.ok (), none⟩] },
        some (unsubscribe 9)) :=
  ⟨(c10_subscribe_handle 5 (fun _ => Except.ok ()) none c10Store).1 rfl,
    (c10_subscribe_handle 9 (fun _ => Except.ok ()) none c10Store).2 rfl⟩

/-- C4 witness for the amended statement: with no interleaved writes and
initial state 42, the wrapper for `+1` commits exactly once, last, with value
43 computed from the call-time state. -/
theorem c4_witness :
    ({ store := (43 : Int), stateListeners := [] } : StoreState Int Unit).store =
      (fun s => s + 1) (42 : Int) ∧
    ([Event.committed (43 : Int)].getLast? =
      some (Event.committed ((fun s => s + 1) (42 : Int)))) ∧
    ([Event.committed (43 : Int)].countP Event.isCommit) = 1 :=
  c4_async_single_commit (fun s : Int => s + 1) []
    ({ store := 42, stateListeners := [] } : StoreState Int Unit)
    ({ store := 43, stateListeners := [] } : StoreState Int Unit)
    [Event.committed (43 : Int)] (by rfl)

end Barebone
